import Mathlib

/-!
# Verification of the SL transit MCP server core

A shallow embedding of the repository's core logic (`app/mcp/sl.ts`, the
unnamed library module, and the `sl_departures` / `sl_find_site` boundary in
`app/mcp/route.ts`) together with theorems settling the frozen claims.

Modelling conventions for the JavaScript/TypeScript source:
* a JS `number` is modelled as `Option ℚ`, where `none` stands for the
  non-finite values (`NaN`, `±Infinity`); IEEE-754 rounding is abstracted,
  which is exact on every value relevant here (all integral epoch values in
  the valid `Date` range are below `2^53`);
* a JS `Date` object is modelled as `Option Int`: `some t` is a valid
  instant with epoch milliseconds `t`, `none` is an Invalid Date (whose
  `getTime()` is `NaN`);
* `undefined`/missing object fields are modelled with `Option`;
* fallible code (a JS `throw`) is modelled with `Except`;
* `Array.prototype.sort`, which is stable per the ECMAScript spec, is
  modelled by a stable insertion sort on the comparator (for a consistent
  comparator all stable sorts agree).
-/

/-- A JS number: `some q` is a finite value, `none` is `NaN`/`±Infinity`. -/
abbrev JsNum := Option ℚ

/-- A JS `Date` object: `some t` is a valid instant (epoch ms), `none` is an
Invalid Date. -/
abbrev JsDate := Option Int

/-- ECMAScript `ToIntegerOrInfinity` on a finite value: truncation toward
zero. -/
def jsTrunc (q : ℚ) : Int :=
  if 0 ≤ q then ⌊q⌋ else ⌈q⌉

/-- Largest valid ECMAScript time value (±8.64e15 ms). -/
def maxTimeValue : Int := 8640000000000000

/-- `new Date(n)` for a JS number `n`: `TimeClip` yields an Invalid Date for
non-finite or out-of-range values, otherwise the truncated instant. -/
def mkDate (n : JsNum) : JsDate :=
  match n with
  | none => none
  | some q =>
      let t := jsTrunc q
      if t.natAbs ≤ maxTimeValue.natAbs then some t else none

/-- `a.getTime() !== b.getTime()` on two JS `Date` objects: `NaN` is unequal
to every value, itself included, so any Invalid Date makes this true. -/
def getTimeNeq (a b : JsDate) : Bool :=
  match a, b with
  | some x, some y => x ≠ y
  | _, _ => true

/-! ## String helpers (models of JS string builtins) -/

/-- `p` is a prefix of `l` (model of prefix testing on char lists). -/
def listPre : List Char → List Char → Bool
  | [], _ => true
  | _ :: _, [] => false
  | a :: as, b :: bs => a = b && listPre as bs

/-- Model of `String.prototype.startsWith`. -/
def strStartsWith (s pat : String) : Bool :=
  listPre pat.data s.data

/-- Model of `String.prototype.includes`: some suffix of `s` starts with
`pat`. -/
def strIncludes (s pat : String) : Bool :=
  (List.range (s.data.length + 1)).any fun i => listPre pat.data (s.data.drop i)

/-- Model of `String.prototype.toLowerCase` (ASCII case mapping; no claim
depends on non-ASCII case folding). -/
def jsToLower (s : String) : String :=
  String.mk (s.data.map Char.toLower)

/-- Model of `String.prototype.toUpperCase` (ASCII case mapping). -/
def jsToUpper (s : String) : String :=
  String.mk (s.data.map Char.toUpper)

/-- Model of `String.prototype.trim`: strip leading and trailing
whitespace. -/
def jsTrim (s : String) : String :=
  String.mk (((s.data.dropWhile Char.isWhitespace).reverse.dropWhile
    Char.isWhitespace).reverse)

/-- The value of a non-empty all-digit character run as a natural number
(model of JS `Number` on a digit string). -/
def digitsToNat (l : List Char) : Nat :=
  l.foldl (fun n c => n * 10 + (c.toNat - 48)) 0

/-- Collapse every maximal run of whitespace to a single space
(model of `.replace(/\s+/g, " ")`). -/
def collapseWs (l : List Char) : List Char :=
  match l with
  | [] => []
  | c :: rest =>
      if c.isWhitespace then
        match collapseWs rest with
        | [] => [' ']
        | d :: ds => if d = ' ' then ' ' :: ds else ' ' :: d :: ds
      else c :: collapseWs rest

/-- `normalizeText` from the source:
`value.toLowerCase().replace(/\s+/g, " ").trim()`. -/
def normalizeText (value : String) : String :=
  jsTrim (String.mk (collapseWs (jsToLower value).data))

/-- Model of `a.localeCompare(b, "sv")`: a three-valued comparison derived
from the linear order on strings (Swedish collation weights are abstracted;
no claim depends on the order of two specific strings). -/
def svCompare (a b : String) : Int :=
  if a < b then -1 else if b < a then 1 else 0

/-! ## Time Parser (`parseTimeValue`) -/

/-- The `unknown` input of `parseTimeValue`: a JS number, a JS string, or
anything else (`null`, `undefined`, objects, ...). -/
inductive TimeValue where
  | num (n : JsNum)
  | str (s : String)
  | other
deriving DecidableEq

/-- Scan for the regex `/\/Date\((\d+)\)\//`: the first position where the
literal `/Date(` is followed by a non-empty digit run and then `)/`; returns
the captured digit run as a `Nat`. -/
def findBracketDigits : List Char → Option Nat
  | [] => none
  | c :: rest =>
      let here : Option Nat :=
        match listPre "/Date(".data (c :: rest) with
        | false => none
        | true =>
            let tail := (c :: rest).drop 6
            let digits := tail.takeWhile Char.isDigit
            let after := tail.drop digits.length
            if digits.isEmpty then none
            else if listPre ")/".data after then
              some (digitsToNat digits)
            else none
      match here with
      | some n => some n
      | none => findBracketDigits rest

/-- Model of `/^\d+$/.test(s)`. -/
def isAllDigits (s : String) : Bool :=
  !s.data.isEmpty && s.data.all Char.isDigit

/-- `parseTimeValue` from the source.  `dparse` models the JS builtin
`new Date(string)` generic date-string parser (returning an Invalid Date,
i.e. `none`, on garbage); the source's four interpretations are attempted in
order, first success winning:

```js
if (typeof value === "number") return new Date(value);
if (typeof value !== "string") return null;
const trimmed = value.trim();
const match = trimmed.match(/\/Date\((\d+)\)\//);
if (match) return new Date(Number(match[1]));
if (/^\d+$/.test(trimmed)) return new Date(Number(trimmed));
const date = new Date(trimmed);
return Number.isNaN(date.getTime()) ? null : date;
```

The outer `Option` is the `Date | null` result (`none` = `null`); note that
the numeric, bracketed and bare-digit paths return the constructed `Date`
without a validity check. -/
def parseTimeValue (dparse : String → JsDate) (value : TimeValue) : Option JsDate :=
  match value with
  | .num n => some (mkDate n)
  | .other => none
  | .str s =>
      let trimmed := jsTrim s
      match findBracketDigits trimmed.data with
      | some d => some (mkDate (some (d : ℚ)))
      | none =>
          if isAllDigits trimmed then
            some (mkDate (some ((digitsToNat trimmed.data : Int) : ℚ)))
          else
            match dparse trimmed with
            | none => none
            | some t => some (some t)

/-! ## Sites and the catalog fetch (`fetchSitesFromApi`) -/

/-- A catalog site (TS `type Site = { siteId: number; name: string }`). -/
structure Site where
  siteId : ℚ
  name : String
deriving DecidableEq, Repr

/-- One record of the upstream sites response.  `siteIdNum` is the value of
the JS conversion `Number(site.siteId)` (`none` when the field is absent or
not numeric, i.e. the conversion produced `NaN`); `name` is the raw `name`
field (`none` when absent). -/
structure RawSiteRecord where
  siteIdNum : JsNum
  name : Option String
deriving DecidableEq

/-- The record-mapping part of `fetchSitesFromApi` (the HTTP layer and the
non-array throw are boundary effects outside this model):

```js
return data
  .map((site) => ({
    siteId: Number(site.siteId),
    name: String(site.name ?? "").trim(),
  }))
  .filter((site) => Number.isFinite(site.siteId) && site.name.length > 0);
```

Since the model's `Site.siteId` carries a finite rational, the map/filter
pair is expressed as one `filterMap` keeping exactly the records whose
converted id is finite and whose trimmed name is non-empty. -/
def fetchSitesFromApi (data : List RawSiteRecord) : List Site :=
  data.filterMap fun r =>
    match r.siteIdNum with
    | none => none
    | some q =>
        let n := jsTrim (r.name.getD "")
        if 0 < n.length then some { siteId := q, name := n } else none

/-! ## Site matcher -/

/-- The scoring of a normalized candidate name against a normalized query:
exact = 3, starts-with = 2, includes = 1, otherwise 0. -/
def scoreFor (normalizedQuery normalizedName : String) : Nat :=
  if normalizedName = normalizedQuery then 3
  else if strStartsWith normalizedName normalizedQuery then 2
  else if strIncludes normalizedName normalizedQuery then 1
  else 0

/-- The score of a site against a raw query (both sides normalized, as in
the source). -/
def scoreOf (query : String) (s : Site) : Nat :=
  scoreFor (normalizeText query) (normalizeText s.name)

/-- One element of the `scored` intermediate list:
`{ site, score, length: normalizedName.length }`. -/
structure ScoredEntry where
  site : Site
  score : Nat
  len : Nat
deriving DecidableEq

/-- Build the scored entry of a site. -/
def siteEntry (query : String) (s : Site) : ScoredEntry :=
  { site := s, score := scoreOf query s, len := (normalizeText s.name).length }

/-- The sort comparator shared by `getSiteCandidates` and
`resolveSiteMatch`:

```js
if (b.score !== a.score) return b.score - a.score;
if (a.length !== b.length) return a.length - b.length;
return a.site.name.localeCompare(b.site.name, "sv");
```
-/
def cmpEntries (a b : ScoredEntry) : Int :=
  if a.score ≠ b.score then (b.score : Int) - (a.score : Int)
  else if a.len ≠ b.len then (a.len : Int) - (b.len : Int)
  else svCompare a.site.name b.site.name

/-- The non-positive-comparator relation the stable sort is taken over. -/
def entryLe (a b : ScoredEntry) : Bool :=
  cmpEntries a b ≤ 0

/-- Insert an element into a sorted list, before the first element it is
`le`-below-or-tied-with (hence before equal elements already present). -/
def orderedInsert (le : α → α → Bool) (a : α) : List α → List α
  | [] => [a]
  | b :: l => if le a b then a :: b :: l else b :: orderedInsert le a l

/-- A stable sort.  `Array.prototype.sort` is required by the ECMAScript
spec to be stable, and for a consistent comparator every stable sort
produces the same list, so insertion sort is an extensionally faithful
model of it. -/
def stableSort (le : α → α → Bool) : List α → List α
  | [] => []
  | a :: l => orderedInsert le a (stableSort le l)

/-- The scored-filtered-sorted pipeline that both `getSiteCandidates` and
`resolveSiteMatch` repeat verbatim in the source: map each site to its
scored entry, keep positive scores, stable-sort by the comparator. -/
def rankSites (sites : List Site) (query : String) : List ScoredEntry :=
  stableSort entryLe ((sites.map (siteEntry query)).filter fun e => 0 < e.score)

/-- `getSiteCandidates(sites, query, maxResults)`: the ranked list, sliced
to `maxResults` (the boundary schema guarantees a positive integer, so the
slice bound is modelled as a `Nat`), projected to the sites. -/
def getSiteCandidates (sites : List Site) (query : String) (maxResults : Nat) : List Site :=
  ((rankSites sites query).take maxResults).map fun e => e.site

/-- The three-way outcome of `resolveSiteMatch` (source: a record with the
optional fields `site?` and `candidates?`; exactly one of the three shapes
`{}`, `{ candidates }`, `{ site }` is returned). -/
inductive MatchResult where
  | noMatch
  | ambiguous (candidates : List Site)
  | resolved (site : Site)
deriving DecidableEq

/-- `resolveSiteMatch(sites, query)` from the source. -/
def resolveSiteMatch (sites : List Site) (query : String) : MatchResult :=
  let scored := rankSites sites query
  match scored with
  | [] => .noMatch
  | top :: _ =>
      let topScore := top.score
      let topCandidates := scored.filter fun e => e.score = topScore
      if 2 ≤ topScore ∧ 1 < topCandidates.length then
        .ambiguous (topCandidates.map fun e => e.site)
      else
        .resolved top.site

/-! ## Mode normalizer -/

/-- `SUPPORTED_MODES` from the source. -/
def SUPPORTED_MODES : List String := ["BUS", "METRO", "TRAIN", "TRAM", "SHIP"]

/-- The per-request mode filter: a set of canonical tokens (the JS `Set` is
modelled as a duplicate-free-by-insertion list; only emptiness and
membership are ever consulted) plus the ignored original tokens. -/
structure ModeFilter where
  filterSet : List String
  ignoredModes : List String
deriving DecidableEq

/-- JS `Set.prototype.add`: inserting an element already present is a
no-op. -/
def setAdd (l : List String) (x : String) : List String :=
  if l.contains x then l else l ++ [x]

/-- `normalizeModesFilter(modes)` from the source: partition the tokens into
canonical filter entries (ferry aliases collapse to `SHIP`) and ignored
originals. -/
def normalizeModesFilter (modes : List String) : ModeFilter :=
  modes.foldl
    (fun acc mode =>
      let upper := jsToUpper mode
      if upper = "FERRY" ∨ upper = "SHIP/FERRY" then
        { acc with filterSet := setAdd acc.filterSet "SHIP" }
      else if SUPPORTED_MODES.contains upper then
        { acc with filterSet := setAdd acc.filterSet upper }
      else
        { acc with ignoredModes := acc.ignoredModes ++ [mode] })
    { filterSet := [], ignoredModes := [] }

/-- `normalizeDepartureMode(mode)` from the source: uppercase, ferry aliases
to `SHIP`, everything else passed through uppercased. -/
def normalizeDepartureMode (mode : String) : String :=
  let upper := jsToUpper mode
  if upper = "FERRY" ∨ upper = "SHIP/FERRY" then "SHIP" else upper

/-! ## Departure mapping (`mapDeparture`, `fetchDepartures`) -/

/-- The `timing` enum of a `Departure`. -/
inductive Timing where
  | realtime
  | scheduled
deriving DecidableEq, Repr

/-- The uniform `Departure` shape. -/
structure Departure where
  time : String
  mode : String
  line : String
  destination : String
  platform : String
  timing : Timing
deriving DecidableEq, Repr

/-- The `line` field of a raw record: either an object (with optional
`designation` / `name` / `transportMode`), a plain string, or absent. -/
inductive LineField where
  | obj (designation tname transportMode : Option String)
  | str (s : String)
  | absent
deriving DecidableEq

/-- A raw upstream departure record (`Record<string, unknown>`), restricted
to the fields the source reads.  Time-carrying fields hold a `TimeValue`
(`none` = field absent/`undefined`); text fields hold an optional string. -/
structure RawDeparture where
  expectedDepartureTime : Option TimeValue := none
  expected : Option TimeValue := none
  realtimeDepartureTime : Option TimeValue := none
  realtime : Option TimeValue := none
  estimatedDepartureTime : Option TimeValue := none
  scheduledDepartureTime : Option TimeValue := none
  plannedDepartureTime : Option TimeValue := none
  scheduled : Option TimeValue := none
  time : Option TimeValue := none
  transportMode : Option String := none
  mode : Option String := none
  line : LineField := .absent
  lineNumber : Option String := none
  destination : Option String := none
  direction : Option String := none
  destinationName : Option String := none
  stopPointDesignation : Option String := none
  platform : Option String := none
deriving DecidableEq

/-- The expected-time field chain
`raw.expectedDepartureTime ?? raw.expected ?? raw.realtimeDepartureTime ??
raw.realtime ?? raw.estimatedDepartureTime` (nullish coalescing: first
present field wins). -/
def selExpected (raw : RawDeparture) : Option TimeValue :=
  raw.expectedDepartureTime <|> raw.expected <|> raw.realtimeDepartureTime <|>
    raw.realtime <|> raw.estimatedDepartureTime

/-- The scheduled-time field chain
`raw.scheduledDepartureTime ?? raw.plannedDepartureTime ?? raw.scheduled ??
raw.time`. -/
def selScheduled (raw : RawDeparture) : Option TimeValue :=
  raw.scheduledDepartureTime <|> raw.plannedDepartureTime <|> raw.scheduled <|>
    raw.time

/-- The parse of the first present field of the expected-time chain of a raw
record (`none` when the chain selects nothing or the selected value is
unparseable). -/
def expectedDateOf (dparse : String → JsDate) (raw : RawDeparture) : Option JsDate :=
  (selExpected raw).bind (parseTimeValue dparse)

/-- The parse of the first present field of the scheduled-time chain. -/
def scheduledDateOf (dparse : String → JsDate) (raw : RawDeparture) : Option JsDate :=
  (selScheduled raw).bind (parseTimeValue dparse)

/-- `expectedDate ?? scheduledDate`: the `timeValue` a raw record
contributes. -/
def timeValueOf (dparse : String → JsDate) (raw : RawDeparture) : Option JsDate :=
  expectedDateOf dparse raw <|> scheduledDateOf dparse raw

/-- A raw record has *some* recognized time field, anywhere among the nine
alternative field names, whose value `parseTimeValue` accepts (returns
non-null on).  This is the reading of "a parseable time field anywhere"; the
source instead parses only the first *present* field of each chain. -/
def hasAnyParseableTimeField (dparse : String → JsDate) (raw : RawDeparture) : Bool :=
  [raw.expectedDepartureTime, raw.expected, raw.realtimeDepartureTime, raw.realtime,
    raw.estimatedDepartureTime, raw.scheduledDepartureTime, raw.plannedDepartureTime,
    raw.scheduled, raw.time].any fun f => (f.bind (parseTimeValue dparse)).isSome

/-- JS truthiness chaining with `||` over optional strings: an absent field
and the empty string are both falsy. -/
def strTruthy (o : Option String) : Option String :=
  match o with
  | some s => if s = "" then none else some s
  | none => none

/-- `a || b` on (optional) strings. -/
def jsOr (a b : Option String) : Option String :=
  (strTruthy a) <|> b

/-- The mode extraction
`(raw.transportMode) || (raw.mode) || (raw.line)?.transportMode || ""`. -/
def extractMode (raw : RawDeparture) : String :=
  (jsOr raw.transportMode (jsOr raw.mode
    (match raw.line with
     | .obj _ _ tm => tm
     | _ => none))).getD ""

/-- The line extraction
`(raw.line)?.designation || (raw.line)?.name || (raw.line as string) ||
(raw.lineNumber) || ""`; a line object reaching the `as string` position is
truthy and stringifies to `"[object Object]"`. -/
def extractLine (raw : RawDeparture) : String :=
  (jsOr (match raw.line with | .obj d _ _ => d | _ => none)
    (jsOr (match raw.line with | .obj _ n _ => n | _ => none)
      (jsOr (match raw.line with
             | .str s => some s
             | .obj _ _ _ => some "[object Object]"
             | .absent => none)
        raw.lineNumber))).getD ""

/-- The destination extraction
`(raw.destination) || (raw.direction) || (raw.destinationName) || ""`. -/
def extractDestination (raw : RawDeparture) : String :=
  (jsOr raw.destination (jsOr raw.direction raw.destinationName)).getD ""

/-- The platform extraction
`(raw.stopPoint)?.designation || (raw.platform) || ""`. -/
def extractPlatform (raw : RawDeparture) : String :=
  (jsOr raw.stopPointDesignation raw.platform).getD ""

/-- Stand-in for the `Intl.DateTimeFormat` builtin `timeFormatter.format` on
a valid instant; the exact HH:MM rendering is irrelevant to every claim,
only that formatting is defined exactly on valid instants. -/
def formatTime (t : Int) : String :=
  toString t

/-- `mapDeparture(raw)` from the source.  The result is
`Except Unit (Option Departure)`: `.error ()` models the `RangeError` the
`Intl` formatter throws when `timeValue` is an Invalid Date (non-null but
with `NaN` epoch), `.ok none` models the `return null` drop, `.ok (some d)`
a produced departure. -/
def mapDeparture (dparse : String → JsDate) (raw : RawDeparture) :
    Except Unit (Option Departure) :=
  let expectedDate : Option JsDate := expectedDateOf dparse raw
  let scheduledDate : Option JsDate := scheduledDateOf dparse raw
  let timeValue : Option JsDate := expectedDate <|> scheduledDate
  match timeValue with
  | none => .ok none
  | some none => .error ()
  | some (some t) =>
      let timing : Timing :=
        match expectedDate, scheduledDate with
        | some ed, some sd => if getTimeNeq ed sd then .realtime else .scheduled
        | _, _ => .scheduled
      .ok (some
        { time := formatTime t
          mode := extractMode raw
          line := extractLine raw
          destination := extractDestination raw
          platform := extractPlatform raw
          timing := timing })

/-- The decoded JSON body of the departures endpoint: a bare array, an
object whose `departures` field is an array or absent, or an object whose
`departures` field is some other (non-array) value. -/
inductive DepResponse where
  | arr (l : List RawDeparture)
  | obj (departures : Option (List RawDeparture))
  | objOther

/-- `Array.isArray(data) ? data : data.departures ?? []`, followed by the
non-array guard that yields `[]`. -/
def rawDeparturesOf : DepResponse → List RawDeparture
  | .arr l => l
  | .obj (some l) => l
  | .obj none => []
  | .objOther => []

/-- The body of `fetchDepartures` after a successful HTTP response (the
fetch and the non-ok throw are boundary effects outside this model):

```js
const rawDepartures = Array.isArray(data) ? data : data.departures ?? [];
if (!Array.isArray(rawDepartures)) return [];
return rawDepartures.map(mapDeparture).filter(Boolean) as Departure[];
```

`map` aborts with the first thrown exception, hence the monadic `mapM`. -/
def fetchDepartures (dparse : String → JsDate) (data : DepResponse) :
    Except Unit (List Departure) := do
  let rawDepartures := rawDeparturesOf data
  let mapped ← rawDepartures.mapM (mapDeparture dparse)
  return mapped.filterMap id

/-- `formatDepartureLine(departure)` from the source. -/
def formatDepartureLine (d : Departure) : String :=
  let mode := normalizeDepartureMode (if d.mode = "" then "UNKNOWN" else d.mode)
  let line := if d.line = "" then "-" else d.line
  let destination := if d.destination = "" then "Unknown destination" else d.destination
  let platformText := if d.platform ≠ "" then " (platform " ++ d.platform ++ ")" else ""
  let timingText := match d.timing with | .realtime => "realtime" | .scheduled => "scheduled"
  d.time ++ "  " ++ mode ++ "  " ++ line ++ " → " ++ destination ++ platformText ++
    " [" ++ timingText ++ "]"

/-! ## Site catalog cache (`getMemoryCache` / `setMemoryCache` / `getSites`) -/

/-- `type CacheEntry<T> = { value: T; expiresAt: number }` (expiry in epoch
ms). -/
structure CacheEntry (α : Type) where
  value : α
  expiresAt : Int
deriving DecidableEq

/-- The process-wide `memoryCache` Map, restricted to the single key
(`SITES_CACHE_KEY`) the module ever uses. -/
abbrev SitesCacheState := Option (CacheEntry (List Site))

/-- `getMemoryCache(key)` at current time `now`: a missing entry yields
`null`; an entry with `Date.now() > entry.expiresAt` is deleted and yields
`null`; otherwise the entry's value.  Returns the value together with the
updated map. -/
def getMemoryCache (now : Int) (st : SitesCacheState) :
    Option (List Site) × SitesCacheState :=
  match st with
  | none => (none, none)
  | some entry =>
      if now > entry.expiresAt then (none, none)
      else (some entry.value, some entry)

/-- `setMemoryCache(key, value, ttlMs)` at current time `now`. -/
def setMemoryCache (now : Int) (value : List Site) (ttlMs : Int) : SitesCacheState :=
  some { value := value, expiresAt := now + ttlMs }

/-- One hour in ms: the fast-tier TTL (`60 * 60 * 1000`). -/
def fastTierTtlMs : Int := 60 * 60 * 1000

/-- The external collaborators one `getSites()` call can touch: whether the
durable KV tier is configured, what its read would produce (`.error` = the
caught, warned-and-ignored KV failure; `.ok none` = a miss or a non-array
value), and what one upstream sites fetch would produce (`.error` = the
non-success HTTP response, thrown). -/
structure SitesEnv where
  kvConfigured : Bool
  kvGet : Except Unit (Option (List Site))
  upstream : Except String (List RawSiteRecord)

/-- `getSites()` from the source, as a function of the current time, the
environment and the fast-tier state.  The returned `Bool` records whether an
upstream fetch was issued.  The durable-tier write is advisory (its failure
is caught) and does not affect the result or the fast-tier state. -/
def getSites (now : Int) (env : SitesEnv) (st : SitesCacheState) :
    Except String (List Site × SitesCacheState × Bool) :=
  let memRead := getMemoryCache now st
  match memRead.1 with
  | some memorySites => .ok (memorySites, memRead.2, false)
  | none =>
      let kvHit : Option (List Site) :=
        if env.kvConfigured then
          match env.kvGet with
          | .ok (some cachedSites) => some cachedSites
          | _ => none
        else none
      match kvHit with
      | some cachedSites =>
          .ok (cachedSites, setMemoryCache now cachedSites fastTierTtlMs, false)
      | none =>
          match env.upstream with
          | .error e => .error e
          | .ok data =>
              let sites := fetchSitesFromApi data
              .ok (sites, setMemoryCache now sites fastTierTtlMs, true)

/-! ## The `sl_departures` boundary (`route.ts`) -/

/-- The argument object of one `sl_departures` invocation, over the keys the
schema or the handler mentions (`station` and `id` are read by the handler
but do not appear in the schema). -/
structure SlDeparturesArgs where
  siteId : Option Int := none
  station : Option String := none
  id : Option Int := none
  maxResults : Option Int := none
  modes : Option (List String) := none
  directionContains : Option String := none
deriving DecidableEq

/-- The zod input schema of `sl_departures` (route.ts):

```js
z.object({
  siteId: z.coerce.number().int(),
  maxResults: z.number().int().min(1).max(30).optional(),
  modes: z.array(z.string()).optional(),
  directionContains: z.string().min(1).optional(),
}).strict()
```

`siteId` is required; `.strict()` rejects every unknown key, in particular
`station` and `id`. -/
def validateSlDeparturesArgs (a : SlDeparturesArgs) : Bool :=
  a.siteId.isSome &&
  a.station == none &&
  a.id == none &&
  (match a.maxResults with
   | none => true
   | some m => 1 ≤ m && m ≤ 30) &&
  (match a.directionContains with
   | none => true
   | some s => 1 ≤ s.length)

/-- The post-fetch filter pipeline of the `sl_departures` handler
(route.ts): mode filter, then destination filter, then `slice(0, limit)`
with `limit = maxResults ?? 8`:

```js
const filtered = departures
  .filter((departure) => {
    if (filterModes.filterSet.size === 0) return true;
    const modeValue = normalizeDepartureMode(departure.mode);
    return filterModes.filterSet.has(modeValue);
  })
  .filter((departure) => {
    if (!directionContains) return true;
    const haystack = `${departure.destination ?? ""}`.toLowerCase();
    return haystack.includes(directionContains.toLowerCase());
  })
  .slice(0, limit);
```

The schema guarantees `maxResults`, when present, is a positive integer, so
the slice bound is modelled as a `Nat`; `!directionContains` is true for the
absent case and for the empty string (JS falsiness). -/
def slDeparturesFiltered (departures : List Departure) (modes : Option (List String))
    (directionContains : Option String) (maxResults : Option Nat) : List Departure :=
  let limit := maxResults.getD 8
  let filterModes := normalizeModesFilter (modes.getD [])
  ((departures.filter fun departure =>
      if filterModes.filterSet.isEmpty then true
      else filterModes.filterSet.contains (normalizeDepartureMode departure.mode)).filter
    fun departure =>
      match directionContains with
      | none => true
      | some dc =>
          if dc = "" then true
          else strIncludes (jsToLower departure.destination) (jsToLower dc)).take limit


/-! ## Derived notions used in claim statements -/

/-- The top score of a query over a site list (`0` when no site matches). -/
def topScore (sites : List Site) (query : String) : Nat :=
  (sites.map (scoreOf query)).foldr max 0

/-! ## Helper lemmas: the stable sort -/

theorem perm_orderedInsert (le : α → α → Bool) (a : α) (l : List α) :
    List.Perm (orderedInsert le a l) (a :: l) := by
  induction l with
  | nil => simp [orderedInsert]
  | cons b t ih =>
      by_cases h : le a b = true
      · simp [orderedInsert, h]
      · simp only [orderedInsert, h, if_false]
        exact List.Perm.trans (ih.cons b) (List.Perm.swap a b t)

theorem perm_stableSort (le : α → α → Bool) (l : List α) :
    List.Perm (stableSort le l) l := by
  induction l with
  | nil => simp [stableSort]
  | cons a t ih =>
      exact List.Perm.trans (perm_orderedInsert le a _) (ih.cons a)

theorem mem_orderedInsert (le : α → α → Bool) (a x : α) (l : List α) :
    x ∈ orderedInsert le a l ↔ x = a ∨ x ∈ l := by
  rw [(perm_orderedInsert le a l).mem_iff, List.mem_cons]

theorem mem_stableSort (le : α → α → Bool) (x : α) (l : List α) :
    x ∈ stableSort le l ↔ x ∈ l :=
  (perm_stableSort le l).mem_iff

theorem pairwise_orderedInsert (le : α → α → Bool)
    (trans : ∀ a b c, le a b = true → le b c = true → le a c = true)
    (total : ∀ a b, le a b = true ∨ le b a = true)
    (a : α) (l : List α) (h : l.Pairwise fun x y => le x y = true) :
    (orderedInsert le a l).Pairwise fun x y => le x y = true := by
  induction l with
  | nil => simp [orderedInsert]
  | cons b t ih =>
      rcases List.pairwise_cons.mp h with ⟨hb, ht⟩
      by_cases hab : le a b = true
      · simp only [orderedInsert, hab, if_true]
        refine List.pairwise_cons.mpr ⟨?_, h⟩
        intro x hx
        rcases List.mem_cons.mp hx with rfl | hx
        · exact hab
        · exact trans a b x hab (hb x hx)
      · simp only [orderedInsert, hab, if_false]
        refine List.pairwise_cons.mpr ⟨?_, ih ht⟩
        intro x hx
        rcases (mem_orderedInsert le a x t).mp hx with rfl | hx
        · rcases total x b with h1 | h1
          · exact absurd h1 hab
          · exact h1
        · exact hb x hx

theorem pairwise_stableSort (le : α → α → Bool)
    (trans : ∀ a b c, le a b = true → le b c = true → le a c = true)
    (total : ∀ a b, le a b = true ∨ le b a = true)
    (l : List α) :
    (stableSort le l).Pairwise fun x y => le x y = true := by
  induction l with
  | nil => simp [stableSort]
  | cons a t ih => exact pairwise_orderedInsert le trans total a _ ih

/-! ## Helper lemmas: the entry comparator -/

theorem svCompare_nonpos_iff (a b : String) : svCompare a b ≤ 0 ↔ a ≤ b := by
  unfold svCompare
  rcases lt_trichotomy a b with h | h | h
  · simp [h, le_of_lt h]
  · simp [h, le_refl]
  · simp [not_lt_of_gt h, h, not_le_of_gt h]

theorem entryLe_iff (a b : ScoredEntry) :
    entryLe a b = true ↔
      b.score < a.score ∨
        (a.score = b.score ∧
          (a.len < b.len ∨ (a.len = b.len ∧ a.site.name ≤ b.site.name))) := by
  unfold entryLe cmpEntries
  split_ifs with hs hl
  · rw [decide_eq_true_iff]
    constructor
    · intro h
      exact Or.inl (by omega)
    · rintro (h | ⟨h, -⟩)
      · omega
      · exact absurd h hs
  · have hs2 : a.score = b.score := by omega
    rw [decide_eq_true_iff]
    constructor
    · intro h
      exact Or.inr ⟨hs2, Or.inl (by omega)⟩
    · rintro (h | ⟨-, h | ⟨h, -⟩⟩)
      · omega
      · omega
      · exact absurd h hl
  · have hs2 : a.score = b.score := by omega
    have hl2 : a.len = b.len := by omega
    rw [decide_eq_true_iff, svCompare_nonpos_iff]
    constructor
    · intro h
      exact Or.inr ⟨hs2, Or.inr ⟨hl2, h⟩⟩
    · rintro (h | ⟨-, h | ⟨-, h⟩⟩)
      · omega
      · omega
      · exact h

theorem entryLe_trans (a b c : ScoredEntry)
    (h1 : entryLe a b = true) (h2 : entryLe b c = true) : entryLe a c = true := by
  rw [entryLe_iff] at h1 h2 ⊢
  rcases h1 with h1 | ⟨hs1, h1⟩
  · rcases h2 with h2 | ⟨hs2, h2⟩
    · exact Or.inl (lt_trans h2 h1)
    · exact Or.inl (hs2 ▸ h1)
  · rcases h2 with h2 | ⟨hs2, h2⟩
    · exact Or.inl (hs1 ▸ h2)
    · refine Or.inr ⟨hs1.trans hs2, ?_⟩
      rcases h1 with h1 | ⟨hl1, h1⟩
      · rcases h2 with h2 | ⟨hl2, h2⟩
        · exact Or.inl (lt_trans h1 h2)
        · exact Or.inl (hl2 ▸ h1)
      · rcases h2 with h2 | ⟨hl2, h2⟩
        · exact Or.inl (hl1 ▸ h2)
        · exact Or.inr ⟨hl1.trans hl2, le_trans h1 h2⟩

theorem entryLe_total (a b : ScoredEntry) :
    entryLe a b = true ∨ entryLe b a = true := by
  rw [entryLe_iff, entryLe_iff]
  rcases lt_trichotomy a.score b.score with h | h | h
  · exact Or.inr (Or.inl h)
  · rcases lt_trichotomy a.len b.len with h2 | h2 | h2
    · exact Or.inl (Or.inr ⟨h, Or.inl h2⟩)
    · rcases le_total a.site.name b.site.name with h3 | h3
      · exact Or.inl (Or.inr ⟨h, Or.inr ⟨h2, h3⟩⟩)
      · exact Or.inr (Or.inr ⟨h.symm, Or.inr ⟨h2.symm, h3⟩⟩)
    · exact Or.inr (Or.inr ⟨h.symm, Or.inl h2⟩)
  · exact Or.inl (Or.inl h)

/-! ## Helper lemmas: the ranked list -/

theorem perm_rankSites (sites : List Site) (query : String) :
    List.Perm (rankSites sites query)
      ((sites.map (siteEntry query)).filter fun e => 0 < e.score) :=
  perm_stableSort _ _

theorem pairwise_rankSites (sites : List Site) (query : String) :
    (rankSites sites query).Pairwise fun x y => entryLe x y = true :=
  pairwise_stableSort entryLe entryLe_trans entryLe_total _

theorem mem_rankSites (sites : List Site) (query : String) (e : ScoredEntry) :
    e ∈ rankSites sites query ↔ e.site ∈ sites ∧ e = siteEntry query e.site ∧ 0 < e.score := by
  rw [(perm_rankSites sites query).mem_iff]
  simp only [List.mem_filter, List.mem_map, decide_eq_true_iff]
  constructor
  · rintro ⟨⟨s, hs, rfl⟩, hpos⟩
    exact ⟨hs, rfl, hpos⟩
  · rintro ⟨hs, he, hpos⟩
    exact ⟨⟨e.site, hs, he.symm⟩, hpos⟩

theorem le_foldrMax (l : List Nat) (x : Nat) (hx : x ∈ l) : x ≤ l.foldr max 0 := by
  induction l with
  | nil => cases hx
  | cons a t ih =>
      rcases List.mem_cons.mp hx with rfl | hx
      · exact le_max_left _ _
      · exact le_trans (ih hx) (le_max_right _ _)

theorem foldrMax_le (l : List Nat) (m : Nat) (h : ∀ x ∈ l, x ≤ m) : l.foldr max 0 ≤ m := by
  induction l with
  | nil => simp
  | cons a t ih =>
      simp only [List.foldr_cons, max_le_iff]
      exact ⟨h a (List.mem_cons_self a t), ih fun x hx => h x (List.mem_cons_of_mem a hx)⟩

theorem head_rankSites_score (sites : List Site) (query : String) (e : ScoredEntry)
    (tl : List ScoredEntry) (h : rankSites sites query = e :: tl) :
    e.score = topScore sites query ∧ 0 < e.score := by
  have hmem : e ∈ rankSites sites query := h ▸ List.mem_cons_self e tl
  rcases (mem_rankSites sites query e).mp hmem with ⟨hsite, hentry, hpos⟩
  refine ⟨le_antisymm ?_ ?_, hpos⟩
  · have hscore : e.score = scoreOf query e.site := by rw [hentry]; rfl
    exact hscore ▸ le_foldrMax _ _ (List.mem_map_of_mem (scoreOf query) hsite)
  · refine foldrMax_le _ _ ?_
    intro x hx
    rcases List.mem_map.mp hx with ⟨s, hs, rfl⟩
    by_cases hz : 0 < scoreOf query s
    · have hin : siteEntry query s ∈ rankSites sites query := by
        refine (mem_rankSites sites query _).mpr ⟨?_, rfl, hz⟩
        exact hs
      rw [h] at hin
      rcases List.mem_cons.mp hin with heq | hin
      · exact le_of_eq (congrArg ScoredEntry.score heq)
      · have hle := (List.pairwise_cons.mp (h ▸ pairwise_rankSites sites query)).1 _ hin
        rcases (entryLe_iff e (siteEntry query s)).mp hle with h1 | ⟨h1, -⟩
        · exact le_of_lt h1
        · exact le_of_eq h1.symm
    · omega

theorem countP_rankSites_top (sites : List Site) (query : String) (ts : Nat) (hts : 0 < ts) :
    (rankSites sites query).countP (fun e => e.score = ts) =
      sites.countP fun s => scoreOf query s = ts := by
  rw [(perm_rankSites sites query).countP_eq, List.countP_filter, List.countP_map]
  refine List.countP_congr ?_
  intro s _
  by_cases h : scoreOf query s = ts
  · simp [Function.comp, siteEntry, h, hts]
  · simp [Function.comp, siteEntry, h]

theorem scores_antitone_rankSites (sites : List Site) (query : String) :
    (rankSites sites query).Pairwise fun x y => y.score ≤ x.score := by
  refine (pairwise_rankSites sites query).imp ?_
  intro a b hab
  rcases (entryLe_iff a b).mp hab with h | ⟨h, -⟩
  · exact le_of_lt h
  · exact le_of_eq h.symm

theorem filter_eq_takeWhile_of_sorted (l : List ScoredEntry) (ts : Nat)
    (hsort : l.Pairwise fun x y => y.score ≤ x.score) (hub : ∀ e ∈ l, e.score ≤ ts) :
    l.filter (fun e => e.score = ts) = l.takeWhile fun e => e.score = ts := by
  induction l with
  | nil => rfl
  | cons a t ih =>
      rcases List.pairwise_cons.mp hsort with ⟨ha, ht⟩
      by_cases h : a.score = ts
      · simp [List.filter_cons, List.takeWhile_cons, h,
          ih ht fun e he => hub e (List.mem_cons_of_mem a he)]
      · simp only [List.filter_cons, List.takeWhile_cons, h, decide_eq_false h, if_false,
          Bool.false_eq_true]
        refine List.filter_eq_nil_iff.mpr ?_
        intro e he
        simp only [decide_eq_true_iff]
        intro heq
        exact h (le_antisymm (hub a (List.mem_cons_self a t)) (heq ▸ ha e he))

theorem take_length_takeWhile (p : α → Bool) (l : List α) :
    l.take (l.takeWhile p).length = l.takeWhile p := by
  induction l with
  | nil => rfl
  | cons a t ih =>
      by_cases h : p a = true
      · simp only [List.takeWhile_cons, h, if_true, List.length_cons, List.take_succ_cons]
        exact congrArg (a :: ·) ih
      · simp [List.takeWhile_cons, h]

/-! ## Claim theorems -/

/-- **C4** — For every site list and query, `resolveSiteMatch` returns the
ambiguous outcome if and only if the top score is ≥ 2 and at least two
sites tie at that top score, and then the candidates are the full tied set
in ranking order; otherwise it returns the single top-ranked site when some
site scores > 0, and the no-match outcome when no site scores > 0. -/
theorem resolveSiteMatch_outcomes (sites : List Site) (query : String) :
    ((∃ cs, resolveSiteMatch sites query = .ambiguous cs) ↔
        2 ≤ topScore sites query ∧
          2 ≤ sites.countP fun s => scoreOf query s = topScore sites query)
    ∧ (∀ cs, resolveSiteMatch sites query = .ambiguous cs →
        cs = ((rankSites sites query).filter fun e =>
            e.score = topScore sites query).map fun e => e.site)
    ∧ (resolveSiteMatch sites query = .noMatch ↔ ∀ s ∈ sites, scoreOf query s = 0)
    ∧ (¬(2 ≤ topScore sites query ∧
          2 ≤ sites.countP fun s => scoreOf query s = topScore sites query) →
        (∃ s ∈ sites, 0 < scoreOf query s) →
        ∃ e, (rankSites sites query).head? = some e ∧
          resolveSiteMatch sites query = .resolved e.site) := by
  rcases hL : rankSites sites query with _ | ⟨top, tl⟩
  · have hzero : ∀ s ∈ sites, scoreOf query s = 0 := by
      intro s hs
      by_contra hne
      have hpos : 0 < scoreOf query s := Nat.pos_of_ne_zero hne
      have : siteEntry query s ∈ rankSites sites query :=
        (mem_rankSites sites query _).mpr ⟨hs, rfl, hpos⟩
      rw [hL] at this
      cases this
    have hts : topScore sites query = 0 := by
      refine Nat.le_zero.mp (foldrMax_le _ _ ?_)
      intro x hx
      rcases List.mem_map.mp hx with ⟨s, hs, rfl⟩
      exact Nat.le_zero.mpr (hzero s hs)
    have hres : resolveSiteMatch sites query = .noMatch := by
      unfold resolveSiteMatch
      rw [hL]
    refine ⟨?_, ?_, ?_, ?_⟩
    · constructor
      · rintro ⟨cs, hcs⟩
        rw [hres] at hcs
        cases hcs
      · rintro ⟨h2, -⟩
        rw [hts] at h2
        omega
    · intro cs hcs
      rw [hres] at hcs
      cases hcs
    · exact ⟨fun _ => hzero, fun _ => hres⟩
    · rintro - ⟨s, hs, hpos⟩
      exact absurd (hzero s hs) (by omega)
  · rcases head_rankSites_score sites query top tl hL with ⟨htop, hpos⟩
    have htspos : 0 < topScore sites query := htop ▸ hpos
    have hcount : ((top :: tl).countP fun e => e.score = top.score) =
        sites.countP fun s => scoreOf query s = topScore sites query := by
      rw [← hL, htop]
      exact countP_rankSites_top sites query _ htspos
    have hfiltlen : ((top :: tl).filter fun e => e.score = top.score).length =
        (top :: tl).countP fun e => e.score = top.score :=
      (List.countP_eq_length_filter _ _).symm
    have hcond : (2 ≤ top.score ∧
          1 < ((top :: tl).filter fun e => e.score = top.score).length) ↔
        (2 ≤ topScore sites query ∧
          2 ≤ sites.countP fun s => scoreOf query s = topScore sites query) := by
      rw [hfiltlen, hcount, htop]
      omega
    have hmatch : resolveSiteMatch sites query =
        if 2 ≤ top.score ∧ 1 < ((top :: tl).filter fun e => e.score = top.score).length
        then .ambiguous (((top :: tl).filter fun e => e.score = top.score).map fun e => e.site)
        else .resolved top.site := by
      unfold resolveSiteMatch
      rw [hL]
    have hsitepos : ∃ s ∈ sites, 0 < scoreOf query s := by
      have hmem : top ∈ rankSites sites query := hL ▸ List.mem_cons_self top tl
      rcases (mem_rankSites sites query top).mp hmem with ⟨hs, he, hp⟩
      refine ⟨top.site, hs, ?_⟩
      have : top.score = scoreOf query top.site := by rw [he]; rfl
      omega
    refine ⟨?_, ?_, ?_, ?_⟩
    · constructor
      · rintro ⟨cs, hcs⟩
        rw [hmatch] at hcs
        by_cases hc : 2 ≤ top.score ∧
            1 < ((top :: tl).filter fun e => e.score = top.score).length
        · exact hcond.mp hc
        · rw [if_neg hc] at hcs
          cases hcs
      · intro h
        rw [hmatch, if_pos (hcond.mpr h)]
        exact ⟨_, rfl⟩
    · intro cs hcs
      rw [hmatch] at hcs
      by_cases hc : 2 ≤ top.score ∧
          1 < ((top :: tl).filter fun e => e.score = top.score).length
      · rw [if_pos hc] at hcs
        cases hcs
        rw [← hL, htop]
      · rw [if_neg hc] at hcs
        cases hcs
    · constructor
      · intro h
        rw [hmatch] at h
        by_cases hc : 2 ≤ top.score ∧
            1 < ((top :: tl).filter fun e => e.score = top.score).length
        · rw [if_pos hc] at h
          cases h
        · rw [if_neg hc] at h
          cases h
      · intro h
        rcases hsitepos with ⟨s, hs, hp⟩
        exact absurd (h s hs) (by omega)
    · intro hnc _
      refine ⟨top, rfl, ?_⟩
      rw [hmatch, if_neg fun hc => hnc (hcond.mp hc)]

theorem listPre_self (l : List Char) : listPre l l = true := by
  induction l with
  | nil => rfl
  | cons a t ih => simp [listPre, ih]

theorem strIncludes_of_startsWith (s pat : String) (h : strStartsWith s pat = true) :
    strIncludes s pat = true := by
  unfold strIncludes
  rw [List.any_eq_true]
  refine ⟨0, List.mem_range.mpr (Nat.succ_pos _), ?_⟩
  simpa [strStartsWith] using h

theorem scoreFor_pos_includes (nq nn : String) (h : 0 < scoreFor nq nn) :
    strIncludes nn nq = true := by
  unfold scoreFor at h
  split_ifs at h with h1 h2 h3
  · rw [h1]
    exact strIncludes_of_startsWith nq nq (listPre_self nq.data)
  · exact strIncludes_of_startsWith nn nq h2
  · exact h3
  · omega

theorem scoreOf_pos_includes (query : String) (s : Site) (h : 0 < scoreOf query s) :
    strIncludes (normalizeText s.name) (normalizeText query) = true := by
  unfold scoreOf at h
  exact scoreFor_pos_includes _ _ h

/-- **C5** — For every site list, query, and `maxResults`,
`getSiteCandidates` returns only sites whose normalized name contains the
normalized query (equivalently, whose score is positive under the
exact = 3 / starts-with = 2 / contains = 1 scoring), sorted by score
descending, then normalized-name length ascending, then the locale
comparison of the original names, and truncated to at most `maxResults`
elements. -/
theorem getSiteCandidates_sound (sites : List Site) (query : String) (maxResults : Nat) :
    (∀ s ∈ getSiteCandidates sites query maxResults,
        s ∈ sites ∧ 0 < scoreOf query s ∧
          strIncludes (normalizeText s.name) (normalizeText query) = true)
    ∧ (getSiteCandidates sites query maxResults).length ≤ maxResults
    ∧ (getSiteCandidates sites query maxResults).Pairwise fun s1 s2 =>
        scoreOf query s2 < scoreOf query s1 ∨
          (scoreOf query s1 = scoreOf query s2 ∧
            ((normalizeText s1.name).length < (normalizeText s2.name).length ∨
              ((normalizeText s1.name).length = (normalizeText s2.name).length ∧
                svCompare s1.name s2.name ≤ 0))) := by
  refine ⟨?_, ?_, ?_⟩
  · intro s hs
    rcases List.mem_map.mp hs with ⟨e, hetake, rfl⟩
    have heL : e ∈ rankSites sites query := List.take_subset _ _ hetake
    rcases (mem_rankSites sites query e).mp heL with ⟨hsites, hentry, hpos⟩
    have hscore : e.score = scoreOf query e.site := by rw [hentry]; rfl
    have hpos2 : 0 < scoreOf query e.site := by rw [← hscore]; exact hpos
    exact ⟨hsites, hpos2, scoreOf_pos_includes query e.site hpos2⟩
  · unfold getSiteCandidates
    rw [List.length_map, List.length_take]
    exact min_le_left _ _
  · unfold getSiteCandidates
    rw [List.pairwise_map]
    have htake : ((rankSites sites query).take maxResults).Pairwise
        fun x y => entryLe x y = true :=
      (pairwise_rankSites sites query).sublist (List.take_sublist _ _)
    refine htake.imp_of_mem ?_
    intro a b ha hb hab
    have haL : a ∈ rankSites sites query := List.take_subset _ _ ha
    have hbL : b ∈ rankSites sites query := List.take_subset _ _ hb
    rcases (mem_rankSites sites query a).mp haL with ⟨-, hea, -⟩
    rcases (mem_rankSites sites query b).mp hbL with ⟨-, heb, -⟩
    have hsa : a.score = scoreOf query a.site := by rw [hea]; rfl
    have hsb : b.score = scoreOf query b.site := by rw [heb]; rfl
    have hla : a.len = (normalizeText a.site.name).length := by rw [hea]; rfl
    have hlb : b.len = (normalizeText b.site.name).length := by rw [heb]; rfl
    rcases (entryLe_iff a b).mp hab with h | ⟨h1, h | ⟨h2, h3⟩⟩
    · exact Or.inl (hsa ▸ hsb ▸ h)
    · exact Or.inr ⟨hsa ▸ hsb ▸ h1, Or.inl (hla ▸ hlb ▸ h)⟩
    · exact Or.inr ⟨hsa ▸ hsb ▸ h1,
        Or.inr ⟨hla ▸ hlb ▸ h2, (svCompare_nonpos_iff _ _).mpr h3⟩⟩

/-- **C10** — `resolveSiteMatch` and `getSiteCandidates` agree on ranking:
whenever `resolveSiteMatch` resolves a single site, that site is the first
element of `getSiteCandidates sites query k` for every `k ≥ 1`, and
whenever it reports an ambiguous candidate set, that set is an initial
segment of `getSiteCandidates`'s ordering (both operations apply the same
scoring and tie-break). -/
theorem resolveSiteMatch_agrees_with_candidates (sites : List Site) (query : String) :
    (∀ s, resolveSiteMatch sites query = .resolved s →
        ∀ k, 1 ≤ k → (getSiteCandidates sites query k).head? = some s)
    ∧ (∀ cs, resolveSiteMatch sites query = .ambiguous cs →
        ∀ k, cs.length ≤ k → (getSiteCandidates sites query k).take cs.length = cs) := by
  rcases hL : rankSites sites query with _ | ⟨top, tl⟩
  · constructor
    · intro s h
      unfold resolveSiteMatch at h
      rw [hL] at h
      cases h
    · intro cs h
      unfold resolveSiteMatch at h
      rw [hL] at h
      cases h
  · have hmatch : resolveSiteMatch sites query =
        if 2 ≤ top.score ∧ 1 < ((top :: tl).filter fun e => e.score = top.score).length
        then .ambiguous (((top :: tl).filter fun e => e.score = top.score).map fun e => e.site)
        else .resolved top.site := by
      unfold resolveSiteMatch
      rw [hL]
    have hcand : ∀ k, getSiteCandidates sites query k =
        ((top :: tl).take k).map fun e => e.site := by
      intro k
      unfold getSiteCandidates
      rw [hL]
    constructor
    · intro s h
      rw [hmatch] at h
      by_cases hc : 2 ≤ top.score ∧
          1 < ((top :: tl).filter fun e => e.score = top.score).length
      · rw [if_pos hc] at h
        cases h
      · rw [if_neg hc] at h
        cases h
        intro k hk
        rw [hcand k]
        rcases Nat.exists_eq_add_of_le hk with ⟨k2, rfl⟩
        rw [Nat.add_comm, List.take_succ_cons]
        rfl
    · intro cs h
      rw [hmatch] at h
      by_cases hc : 2 ≤ top.score ∧
          1 < ((top :: tl).filter fun e => e.score = top.score).length
      · rw [if_pos hc] at h
        cases h
        intro k hk
        have hsorted : (top :: tl).Pairwise fun x y => y.score ≤ x.score := by
          rw [← hL]
          exact scores_antitone_rankSites sites query
        have hub : ∀ e ∈ top :: tl, e.score ≤ top.score := by
          intro e he
          rcases List.mem_cons.mp he with rfl | he
          · exact le_refl _
          · exact (List.pairwise_cons.mp hsorted).1 e he
        have hTW : ((top :: tl).filter fun e => e.score = top.score) =
            (top :: tl).takeWhile fun e => e.score = top.score :=
          filter_eq_takeWhile_of_sorted _ _ hsorted hub
        rw [List.length_map, hcand k, ← List.map_take]
        rw [List.take_take, min_eq_left (by rw [List.length_map] at hk; exact hk)]
        rw [hTW, take_length_takeWhile]
      · rw [if_neg hc] at h
        cases h

/-- Witness for C4 at a concrete input: two prefix-tied sites are reported
as ambiguous. -/
theorem resolveSiteMatch_outcomes_witness :
    ∃ cs, resolveSiteMatch [⟨1, "Aba"⟩, ⟨2, "Abc"⟩] "ab" = MatchResult.ambiguous cs :=
  (resolveSiteMatch_outcomes [⟨1, "Aba"⟩, ⟨2, "Abc"⟩] "ab").1.mpr (by decide)

/-- Witness for C5 at a concrete input. -/
theorem getSiteCandidates_sound_witness :
    (⟨1, "Aba"⟩ : Site) ∈ [(⟨1, "Aba"⟩ : Site)] ∧ 0 < scoreOf "ab" ⟨1, "Aba"⟩ ∧
      strIncludes (normalizeText "Aba") (normalizeText "ab") = true :=
  (getSiteCandidates_sound [⟨1, "Aba"⟩] "ab" 5).1 ⟨1, "Aba"⟩ (by decide)

/-- Witness for C10 at a concrete input: the resolved site (exact match
beats prefix match) is the first candidate. -/
theorem resolveSiteMatch_agrees_witness :
    (getSiteCandidates [⟨9001, "T-Centralen"⟩, ⟨9002, "T-Centralen T-bana"⟩]
        "t-centralen" 5).head? = some ⟨9001, "T-Centralen"⟩ :=
  (resolveSiteMatch_agrees_with_candidates
      [⟨9001, "T-Centralen"⟩, ⟨9002, "T-Centralen T-bana"⟩] "t-centralen").1
    ⟨9001, "T-Centralen"⟩ (by decide) 5 (by decide)

theorem length_filterMap_eq_countP (f : α → Option β) (l : List α) :
    (l.filterMap f).length = l.countP fun a => (f a).isSome := by
  induction l with
  | nil => rfl
  | cons a t ih =>
      rw [List.filterMap_cons, List.countP_cons]
      cases hfa : f a with
      | none => simp [hfa, ih]
      | some b => simp [hfa, ih]

/-- **C2 (counterexample)** — the catalog fetch does not check positivity: a
record whose converted `siteId` is the finite negative number `-1` survives
the filter, so not every record in the result has a *positive* numeric
`siteId`. -/
theorem fetchSitesFromApi_keeps_nonpositive_siteId :
    fetchSitesFromApi [{ siteIdNum := some (-1), name := some "X" }] =
      [{ siteId := -1, name := "X" }] ∧ ¬(0 < (-1 : ℚ)) := by
  constructor
  · rfl
  · decide

/-- **C2 (amended)** — for every upstream sites response, every record in
the catalog-fetch result has a *finite* numeric `siteId` (finiteness is the
only numeric check; positivity is not enforced) and a non-empty trimmed
name, and every record that does not contribute such an identifier and name
is dropped silently: the result length equals the count of contributing
records, and no error is raised (the mapping is a total function). -/
theorem fetchSitesFromApi_validation (data : List RawSiteRecord) :
    (∀ s ∈ fetchSitesFromApi data, 0 < s.name.length ∧
        ∃ r ∈ data, r.siteIdNum = some s.siteId ∧ s.name = jsTrim (r.name.getD ""))
    ∧ (fetchSitesFromApi data).length =
        data.countP fun r => r.siteIdNum.isSome && 0 < (jsTrim (r.name.getD "")).length := by
  constructor
  · intro s hs
    rcases List.mem_filterMap.mp hs with ⟨r, hr, hf⟩
    cases hrid : r.siteIdNum with
    | none =>
        rw [hrid] at hf
        cases hf
    | some q =>
        rw [hrid] at hf
        simp only at hf
        by_cases hn : 0 < (jsTrim (r.name.getD "")).length
        · rw [if_pos hn] at hf
          cases hf
          exact ⟨hn, r, hr, hrid, rfl⟩
        · rw [if_neg hn] at hf
          cases hf
  · unfold fetchSitesFromApi
    rw [length_filterMap_eq_countP]
    refine List.countP_congr ?_
    intro r _
    cases hrid : r.siteIdNum with
    | none => simp [hrid]
    | some q =>
        by_cases hn : 0 < (jsTrim (r.name.getD "")).length
        · simp [hrid, hn]
        · simp [hrid, hn]

/-- Witness for the amended C2 at a concrete input. -/
theorem fetchSitesFromApi_validation_witness :
    0 < (Site.mk 3 "Slussen").name.length ∧
      ∃ r ∈ [RawSiteRecord.mk (some 3) (some " Slussen ")],
        r.siteIdNum = some (Site.mk 3 "Slussen").siteId ∧
          (Site.mk 3 "Slussen").name = jsTrim (r.name.getD "") :=
  (fetchSitesFromApi_validation [RawSiteRecord.mk (some 3) (some " Slussen ")]).1
    (Site.mk 3 "Slussen") (by decide)

/-- **C3 (counterexample)** — on the numeric input `1e17` (a finite number
beyond the valid ECMAScript time range) the parser returns the constructed
Invalid Date as a success instead of the "unparseable" sentinel `null`:
the resulting instant is invalid, yet the result is not the sentinel. -/
theorem parseTimeValue_invalid_instant_success :
    parseTimeValue (fun _ => none) (.num (some 100000000000000000)) = some none
    ∧ mkDate (some 100000000000000000) = none
    ∧ parseTimeValue (fun _ => none) (.num (some 100000000000000000)) ≠ none := by
  refine ⟨rfl, rfl, ?_⟩
  decide

/-- **C3 (amended)** — the parser tries numeric epoch, then the bracketed
epoch pattern, then a bare-digit string, then the generic date-string
parse, first success winning, and never throws (it is a total function);
the "unparseable" sentinel is returned exactly when the input is neither a
number nor a string, or is a string matching none of the three string
shapes whose generic parse yields an invalid instant.  The
invalid-instant check guards only the generic date-string path; the
numeric, bracketed and bare-digit epoch paths return the constructed
instant unchecked (and may hence return an invalid instant). -/
theorem parseTimeValue_order_and_sentinel (dparse : String → JsDate) (v : TimeValue) :
    (parseTimeValue dparse v = none ↔
        (v = .other ∨ ∃ s, v = .str s ∧ findBracketDigits (jsTrim s).data = none ∧
          isAllDigits (jsTrim s) = false ∧ dparse (jsTrim s) = none))
    ∧ (∀ s, v = .str s → findBracketDigits (jsTrim s).data = none →
        isAllDigits (jsTrim s) = false → parseTimeValue dparse v ≠ some none)
    ∧ (∀ n, v = .num n → parseTimeValue dparse v = some (mkDate n))
    ∧ (∀ s d, v = .str s → findBracketDigits (jsTrim s).data = some d →
        parseTimeValue dparse v = some (mkDate (some (d : ℚ)))) := by
  cases v with
  | num n =>
      refine ⟨?_, ?_, ?_, ?_⟩
      · simp [parseTimeValue]
      · intro s h
        exact absurd h (by simp)
      · intro n2 h
        cases h
        rfl
      · intro s d h
        exact absurd h (by simp)
  | other =>
      refine ⟨?_, ?_, ?_, ?_⟩
      · simp [parseTimeValue]
      · intro s h
        exact absurd h (by simp)
      · intro n h
        exact absurd h (by simp)
      · intro s d h
        exact absurd h (by simp)
  | str s =>
      have hres : parseTimeValue dparse (.str s) =
          match findBracketDigits (jsTrim s).data with
          | some d => some (mkDate (some (d : ℚ)))
          | none =>
              if isAllDigits (jsTrim s) then
                some (mkDate (some ((digitsToNat (jsTrim s).data : Int) : ℚ)))
              else
                match dparse (jsTrim s) with
                | none => none
                | some t => some (some t) := rfl
      rcases hb : findBracketDigits (jsTrim s).data with _ | d
      · by_cases hd : isAllDigits (jsTrim s)
        · rw [hb, hd] at hres
          simp only [if_true] at hres
          refine ⟨?_, ?_, ?_, ?_⟩
          · rw [hres]
            simp [hb, hd]
          · intro s2 h hb2 hd2
            cases h
            rw [hd] at hd2
            cases hd2
          · intro n h
            exact absurd h (by simp)
          · intro s2 d2 h hb2
            cases h
            rw [hb] at hb2
            cases hb2
        · rw [hb, eq_false_of_ne_true hd] at hres
          simp only [Bool.false_eq_true, if_false] at hres
          rcases hp : dparse (jsTrim s) with _ | t
          · rw [hp] at hres
            refine ⟨?_, ?_, ?_, ?_⟩
            · rw [hres]
              simp only [true_iff]
              exact Or.inr ⟨s, rfl, hb, eq_false_of_ne_true hd, hp⟩
            · intro s2 h hb2 hd2
              cases h
              rw [hres]
              simp
            · intro n h
              exact absurd h (by simp)
            · intro s2 d2 h hb2
              cases h
              rw [hb] at hb2
              cases hb2
          · rw [hp] at hres
            refine ⟨?_, ?_, ?_, ?_⟩
            · rw [hres]
              simp only [reduceCtorEq, false_iff]
              rintro (h | ⟨s2, h, hb2, hd2, hp2⟩)
              · cases h
              · cases h
                rw [hp] at hp2
                cases hp2
            · intro s2 h hb2 hd2
              cases h
              rw [hres]
              simp
            · intro n h
              exact absurd h (by simp)
            · intro s2 d2 h hb2
              cases h
              rw [hb] at hb2
              cases hb2
      · rw [hb] at hres
        refine ⟨?_, ?_, ?_, ?_⟩
        · rw [hres]
          simp only [reduceCtorEq, false_iff]
          rintro (h | ⟨s2, h, hb2, hd2, hp2⟩)
          · cases h
          · cases h
            rw [hb] at hb2
            cases hb2
        · intro s2 h hb2 hd2
          cases h
          rw [hb] at hb2
          cases hb2
        · intro n h
          exact absurd h (by simp)
        · intro s2 d2 h hb2
          cases h
          rw [hb] at hb2
          cases hb2
          rw [hres]

/-- Witness for the amended C3 at a concrete input: `"garbage"` matches no
shape on the generic path, so the sentinel (not an invalid instant) comes
back. -/
theorem parseTimeValue_order_and_sentinel_witness :
    parseTimeValue (fun _ => none) (.str "garbage") ≠ some none :=
  (parseTimeValue_order_and_sentinel (fun _ => none) (.str "garbage")).2.1 "garbage" rfl
    (by decide) (by decide)

/-- **C6 (counterexample)** — a record with a valid expected time and a
present scheduled time whose constructed instant is *invalid* (epoch `1e17`,
out of the `Date` range) produces a departure with `timing = realtime`:
`getTime()` on the Invalid Date is `NaN`, and `NaN !== 1000` holds, even
though no valid scheduled instant exists, let alone one differing from the
expected instant. -/
theorem mapDeparture_realtime_with_invalid_scheduled :
    mapDeparture (fun _ => none)
        { expectedDepartureTime := some (.num (some 1000)),
          scheduledDepartureTime := some (.num (some 100000000000000000)) } =
      .ok (some
        { time := "1000", mode := "", line := "", destination := "", platform := "",
          timing := .realtime })
    ∧ scheduledDateOf (fun _ => none)
        { expectedDepartureTime := some (.num (some 1000)),
          scheduledDepartureTime := some (.num (some 100000000000000000)) } = some none := by
  exact ⟨rfl, rfl⟩

/-- **C6 (amended)** — for every raw record mapped to a `Departure`, the
timing field is `realtime` if and only if both time chains selected a value
whose parse is non-null and the two resulting `Date`s' epoch values differ
under JS strict inequality — where an Invalid Date compares unequal to
every `Date`, itself included.  When both parses yield *valid* instants
this is exactly "both present, parseable, and instants differ"; in every
other produced case the timing is `scheduled`. -/
theorem mapDeparture_timing_characterization (dparse : String → JsDate)
    (raw : RawDeparture) (d : Departure)
    (h : mapDeparture dparse raw = .ok (some d)) :
    d.timing = .realtime ↔
      ∃ ed sd, expectedDateOf dparse raw = some ed ∧
        scheduledDateOf dparse raw = some sd ∧ getTimeNeq ed sd = true := by
  unfold mapDeparture at h
  rcases hed : expectedDateOf dparse raw with _ | ed
  · rcases hsd : scheduledDateOf dparse raw with _ | sd
    · rw [hed, hsd] at h
      cases h
    · rw [hed, hsd] at h
      simp only [Option.none_orElse] at h
      cases sd with
      | none => cases h
      | some t =>
          injection h with h2
          injection h2 with h3
          have htiming : d.timing = .scheduled := by rw [← h3]
          rw [htiming]
          constructor
          · intro hx
            cases hx
          · rintro ⟨ed2, sd2, hed2, -, -⟩
            cases hed2
  · rw [hed] at h
    simp only [Option.some_orElse] at h
    cases ed with
    | none => cases h
    | some t =>
        rcases hsd : scheduledDateOf dparse raw with _ | sd
        · rw [hsd] at h
          injection h with h2
          injection h2 with h3
          have htiming : d.timing = .scheduled := by rw [← h3]
          rw [htiming]
          constructor
          · intro hx
            cases hx
          · rintro ⟨ed2, sd2, -, hsd2, -⟩
            cases hsd2
        · rw [hsd] at h
          injection h with h2
          injection h2 with h3
          have htiming : d.timing =
              if getTimeNeq (some t) sd then Timing.realtime else Timing.scheduled := by
            rw [← h3]
          rw [htiming]
          by_cases hneq : getTimeNeq (some t) sd = true
          · rw [hneq]
            simp only [if_true, true_iff]
            exact ⟨some t, sd, rfl, rfl, hneq⟩
          · rw [eq_false_of_ne_true hneq]
            simp only [Bool.false_eq_true, if_false]
            constructor
            · intro hx
              cases hx
            · rintro ⟨ed2, sd2, hed2, hsd2, hneq2⟩
              cases hed2
              cases hsd2
              exact absurd hneq2 hneq

/-- Witness for the amended C6 at a concrete input: valid expected and
scheduled instants that differ give `realtime`. -/
theorem mapDeparture_timing_characterization_witness :
    (Departure.mk "1000" "" "" "" "" .realtime).timing = .realtime ↔
      ∃ ed sd,
        expectedDateOf (fun _ => none)
            { expectedDepartureTime := some (.num (some 1000)),
              scheduledDepartureTime := some (.num (some 2000)) } = some ed ∧
        scheduledDateOf (fun _ => none)
            { expectedDepartureTime := some (.num (some 1000)),
              scheduledDepartureTime := some (.num (some 2000)) } = some sd ∧
        getTimeNeq ed sd = true :=
  mapDeparture_timing_characterization (fun _ => none)
    { expectedDepartureTime := some (.num (some 1000)),
      scheduledDepartureTime := some (.num (some 2000)) }
    (Departure.mk "1000" "" "" "" "" .realtime) rfl

theorem mapM_ok_of_no_error (f : α → Except ε (Option β)) (l : List α)
    (h : ∀ a ∈ l, ∃ o, f a = .ok o) :
    l.mapM f = .ok (l.map fun a => ((f a).toOption).join) := by
  induction l with
  | nil => rfl
  | cons a t ih =>
      rcases h a (List.mem_cons_self a t) with ⟨o, ho⟩
      rw [List.mapM_cons, ho, ih fun x hx => h x (List.mem_cons_of_mem a hx),
        List.map_cons, ho]
      rfl

theorem countP_not_eq_length_sub (p : α → Bool) (l : List α) :
    (l.countP fun a => !(p a)) = l.length - l.countP p := by
  induction l with
  | nil => rfl
  | cons a t ih =>
      rw [List.countP_cons, List.countP_cons, List.length_cons]
      have hle : t.countP p ≤ t.length := List.countP_le_length p
      by_cases h : p a = true
      · simp [h]
        omega
      · have hf : p a = false := by
          cases hpa : p a
          · rfl
          · exact absurd hpa h
        simp [hf]
        omega

theorem filterMap_id_map (g : α → Option β) (l : List α) :
    (l.map g).filterMap id = l.filterMap g := by
  induction l with
  | nil => rfl
  | cons a t ih =>
      rw [List.map_cons, List.filterMap_cons, List.filterMap_cons]
      cases g a <;> simp [ih]

/-- **C7 (counterexample)** — a record whose *first present* expected-time
field (`expectedDepartureTime = "garbage"`) is unparseable is dropped by
`fetchDepartures` even though another recognized time field (`expected`,
a valid epoch) is parseable: the record has a parseable time field
"anywhere", yet the output is empty, so the output length does not equal
the input length minus the number of records with no parseable time field
anywhere. -/
theorem fetchDepartures_drops_despite_parseable_field :
    fetchDepartures (fun _ => none)
        (.arr [{ expectedDepartureTime := some (.str "garbage"),
                 expected := some (.num (some 1000)) }]) = .ok []
    ∧ hasAnyParseableTimeField (fun _ => none)
        { expectedDepartureTime := some (.str "garbage"),
          expected := some (.num (some 1000)) } = true :=
  ⟨rfl, rfl⟩

/-- **C7 (amended)** — provided no record's selected time value is an
Invalid Date (which would make the formatter throw), `fetchDepartures`
returns exactly the in-order image of the records whose *selected* time
fields parse (first present field of the expected chain, else first present
field of the scheduled chain): each record both of whose selected values
fail to parse is silently dropped, the output length decreases by exactly
one per such record, and the relative order of the remaining records is the
order of their raw records. -/
theorem fetchDepartures_drop_characterization (dparse : String → JsDate)
    (l : List RawDeparture)
    (h : ∀ r ∈ l, timeValueOf dparse r ≠ some none) :
    ∃ out, fetchDepartures dparse (.arr l) = .ok out
      ∧ out = l.filterMap (fun r => ((mapDeparture dparse r).toOption).join)
      ∧ out.length = l.length - l.countP fun r => timeValueOf dparse r = none := by
  have hok : ∀ r ∈ l, ∃ o, mapDeparture dparse r = .ok o ∧
      (o.isSome = !(decide (timeValueOf dparse r = none))) := by
    intro r hr
    have hne := h r hr
    unfold mapDeparture
    rcases hed : expectedDateOf dparse r with _ | ed
    · rcases hsd : scheduledDateOf dparse r with _ | sd
      · exact ⟨none, rfl, by simp [timeValueOf, hed, hsd]⟩
      · cases sd with
        | none =>
            refine absurd ?_ hne
            simp [timeValueOf, hed, hsd]
        | some t =>
            refine ⟨some _, rfl, ?_⟩
            simp [timeValueOf, hed, hsd]
    · cases ed with
      | none =>
          refine absurd ?_ hne
          simp [timeValueOf, hed]
      | some t =>
          refine ⟨some _, rfl, ?_⟩
          simp [timeValueOf, hed]
  have hok2 : ∀ r ∈ l, ∃ o, mapDeparture dparse r = .ok o := by
    intro r hr
    rcases hok r hr with ⟨o, ho, -⟩
    exact ⟨o, ho⟩
  refine ⟨l.filterMap (fun r => ((mapDeparture dparse r).toOption).join), ?_, rfl, ?_⟩
  · have hfd : fetchDepartures dparse (.arr l) =
        (l.mapM (mapDeparture dparse) >>= fun mapped => pure (mapped.filterMap id)) := rfl
    rw [hfd, mapM_ok_of_no_error (mapDeparture dparse) l hok2]
    show Except.ok ((l.map fun a => ((mapDeparture dparse a).toOption).join).filterMap id) = _
    rw [filterMap_id_map]
  · rw [length_filterMap_eq_countP]
    have hcong : l.countP (fun r => (((mapDeparture dparse r).toOption).join).isSome) =
        l.countP fun r => !(decide (timeValueOf dparse r = none)) := by
      refine List.countP_congr ?_
      intro r hr
      rcases hok r hr with ⟨o, ho, hiff⟩
      have hiff2 : o.isSome = true ↔ ¬timeValueOf dparse r = none := by
        rw [hiff]
        simp
      simpa [ho, Except.toOption] using hiff2
    rw [hcong, countP_not_eq_length_sub]

/-- Witness for the amended C7 at a concrete input: one mappable record,
one record with no time fields at all; the latter is dropped. -/
theorem fetchDepartures_drop_characterization_witness :
    ∃ out, fetchDepartures (fun _ => none)
        (.arr [{ expected := some (.num (some 1000)) }, {}]) = .ok out
      ∧ out = [({ expected := some (.num (some 1000)) } : RawDeparture), {}].filterMap
          (fun r => ((mapDeparture (fun _ => none) r).toOption).join)
      ∧ out.length =
          [({ expected := some (.num (some 1000)) } : RawDeparture), {}].length -
            [({ expected := some (.num (some 1000)) } : RawDeparture), {}].countP
              (fun r => timeValueOf (fun _ => none) r = none) :=
  fetchDepartures_drop_characterization (fun _ => none)
    [{ expected := some (.num (some 1000)) }, {}] (by decide)

/-- **C8** — the `sl_departures` handler filters a fetched departure list
by mode first (pass iff the filter set is empty or the canonical mode is in
the set), then by destination substring (case-insensitive contains, only
when a non-empty filter string is supplied), then truncates to the
requested limit, defaulting to 8 when unspecified: the pipeline equals the
conjunctive filter followed by the truncation, every returned departure
passes both filters, at most `limit` items are returned, and the output is
an order-preserving sublist of the input. -/
theorem slDepartures_filter_semantics (departures : List Departure)
    (modes : Option (List String)) (directionContains : Option String)
    (maxResults : Option Nat) :
    (slDeparturesFiltered departures modes directionContains maxResults =
      (departures.filter fun d =>
        (if (normalizeModesFilter (modes.getD [])).filterSet.isEmpty then true
         else (normalizeModesFilter (modes.getD [])).filterSet.contains
           (normalizeDepartureMode d.mode)) &&
        (match directionContains with
         | none => true
         | some dc =>
             if dc = "" then true
             else strIncludes (jsToLower d.destination) (jsToLower dc))).take
        (maxResults.getD 8))
    ∧ (∀ d ∈ slDeparturesFiltered departures modes directionContains maxResults,
        d ∈ departures ∧
        ((normalizeModesFilter (modes.getD [])).filterSet.isEmpty = true ∨
          (normalizeModesFilter (modes.getD [])).filterSet.contains
            (normalizeDepartureMode d.mode) = true) ∧
        ∀ dc, directionContains = some dc → dc ≠ "" →
          strIncludes (jsToLower d.destination) (jsToLower dc) = true)
    ∧ (slDeparturesFiltered departures modes directionContains maxResults).length ≤
        maxResults.getD 8
    ∧ (slDeparturesFiltered departures modes directionContains maxResults).Sublist
        departures := by
  have hunfold : slDeparturesFiltered departures modes directionContains maxResults =
      ((departures.filter fun departure =>
          if (normalizeModesFilter (modes.getD [])).filterSet.isEmpty then true
          else (normalizeModesFilter (modes.getD [])).filterSet.contains
            (normalizeDepartureMode departure.mode)).filter fun departure =>
        match directionContains with
        | none => true
        | some dc =>
            if dc = "" then true
            else strIncludes (jsToLower departure.destination) (jsToLower dc)).take
        (maxResults.getD 8) := rfl
  refine ⟨?_, ?_, ?_, ?_⟩
  · rw [hunfold, List.filter_filter]
    refine congrArg (List.take (maxResults.getD 8)) (List.filter_congr ?_)
    intro d _
    exact Bool.and_comm _ _
  · intro d hd
    rw [hunfold] at hd
    have hd2 := List.take_subset _ _ hd
    rw [List.mem_filter] at hd2
    rcases hd2 with ⟨hd3, hdir⟩
    rw [List.mem_filter] at hd3
    rcases hd3 with ⟨hmem, hmode⟩
    refine ⟨hmem, ?_, ?_⟩
    · by_cases he : (normalizeModesFilter (modes.getD [])).filterSet.isEmpty = true
      · exact Or.inl he
      · rw [if_neg he] at hmode
        exact Or.inr hmode
    · intro dc hdc hne
      rw [hdc] at hdir
      simp only at hdir
      rw [if_neg hne] at hdir
      exact hdir
  · rw [hunfold, List.length_take]
    exact min_le_left _ _
  · rw [hunfold]
    exact (List.take_sublist _ _).trans
      ((List.filter_sublist _).trans (List.filter_sublist _))

/-- Witness for C8 at a concrete input: a METRO departure towards
"CityGate" passes `modes = ["metro"]` and `directionContains = "city"`. -/
theorem slDepartures_filter_semantics_witness :
    Departure.mk "t" "METRO" "1" "CityGate" "" .scheduled ∈
        [Departure.mk "t" "METRO" "1" "CityGate" "" .scheduled] ∧
      ((normalizeModesFilter ((some ["metro"]).getD [])).filterSet.isEmpty = true ∨
        (normalizeModesFilter ((some ["metro"]).getD [])).filterSet.contains
          (normalizeDepartureMode (Departure.mk "t" "METRO" "1" "CityGate" ""
            .scheduled).mode) = true) ∧
      ∀ dc, (some "city" : Option String) = some dc → dc ≠ "" →
        strIncludes (jsToLower (Departure.mk "t" "METRO" "1" "CityGate" ""
          .scheduled).destination) (jsToLower dc) = true :=
  (slDepartures_filter_semantics [Departure.mk "t" "METRO" "1" "CityGate" "" .scheduled]
      (some ["metro"]) (some "city") none).2.1
    (Departure.mk "t" "METRO" "1" "CityGate" "" .scheduled) (by decide)

/-- **C9** — after any successful `getSites()` call the fast tier holds the
returned list under an expiry not in the past, and every subsequent call
while that entry is unexpired (current time does not exceed the expiry)
returns the identical list with no upstream fetch (the fetched flag is
`false` for *every* environment, so the result does not depend on the
upstream at all); an entry whose expiry has been exceeded is treated as
absent — the call behaves exactly as with an empty fast tier, falling
through to the durable tier or upstream. -/
theorem getSites_cache_roundtrip :
    (∀ now env st sites st2 fetched,
        getSites now env st = .ok (sites, st2, fetched) →
        ∃ e, st2 = some ⟨sites, e⟩ ∧ now ≤ e ∧
          ∀ now2 env2, now2 ≤ e →
            getSites now2 env2 st2 = .ok (sites, st2, false))
    ∧ (∀ now env entry, entry.expiresAt < now →
        getSites now env (some entry) = getSites now env none) := by
  have hfresh : ∀ (now : Int) (env : SitesEnv) v e, now ≤ e →
      getSites now env (some ⟨v, e⟩) = .ok (v, some ⟨v, e⟩, false) := by
    intro now env v e h
    have hc : ¬now > e := by omega
    simp [getSites, getMemoryCache, hc]
  have hexp : ∀ (now : Int) (env : SitesEnv) (entry : CacheEntry (List Site)),
      entry.expiresAt < now →
      getSites now env (some entry) = getSites now env none := by
    intro now env entry h
    have hc : now > entry.expiresAt := by omega
    simp [getSites, getMemoryCache, hc]
  have hmiss : ∀ (now : Int) (env : SitesEnv) sites st2 fetched,
      getSites now env none = .ok (sites, st2, fetched) →
      st2 = some ⟨sites, now + fastTierTtlMs⟩ := by
    intro now env sites st2 fetched h
    rcases env with ⟨kvc, kvg, ups⟩
    cases kvc with
    | false =>
        cases ups with
        | error e => exact absurd h (by simp [getSites, getMemoryCache])
        | ok data =>
            simp [getSites, getMemoryCache, setMemoryCache] at h
            rcases h with ⟨h1, h2, h3⟩
            rw [← h2, ← h1]
    | true =>
        cases kvg with
        | error e2 =>
            cases ups with
            | error e => exact absurd h (by simp [getSites, getMemoryCache])
            | ok data =>
                simp [getSites, getMemoryCache, setMemoryCache] at h
                rcases h with ⟨h1, h2, h3⟩
                rw [← h2, ← h1]
        | ok ov =>
            cases ov with
            | none =>
                cases ups with
                | error e => exact absurd h (by simp [getSites, getMemoryCache])
                | ok data =>
                    simp [getSites, getMemoryCache, setMemoryCache] at h
                    rcases h with ⟨h1, h2, h3⟩
                    rw [← h2, ← h1]
            | some c =>
                simp [getSites, getMemoryCache, setMemoryCache] at h
                rcases h with ⟨h1, h2, h3⟩
                rw [← h2, ← h1]
  have httl : fastTierTtlMs = 3600000 := rfl
  refine ⟨?_, hexp⟩
  intro now env st sites st2 fetched h
  rcases st with _ | entry
  · have hst2 := hmiss now env sites st2 fetched h
    refine ⟨now + fastTierTtlMs, hst2, by omega, ?_⟩
    intro now2 env2 h2
    rw [hst2]
    exact hfresh now2 env2 sites (now + fastTierTtlMs) h2
  · rcases entry with ⟨v, e⟩
    by_cases hx : e < now
    · rw [hexp now env ⟨v, e⟩ hx] at h
      have hst2 := hmiss now env sites st2 fetched h
      refine ⟨now + fastTierTtlMs, hst2, by omega, ?_⟩
      intro now2 env2 h2
      rw [hst2]
      exact hfresh now2 env2 sites (now + fastTierTtlMs) h2
    · have hfr := hfresh now env v e (by omega)
      rw [hfr] at h
      cases h
      exact ⟨e, rfl, by omega, fun now2 env2 h2 => hfresh now2 env2 sites e h2⟩

/-- Witness for C9 at a concrete input: after an upstream-backed call at
time 0, any later call up to the expiry returns the same list with no
fetch, whatever the environment then looks like. -/
theorem getSites_cache_roundtrip_witness :
    ∃ e, (some ⟨[Site.mk 1 "A"], 3600000⟩ : SitesCacheState) = some ⟨[Site.mk 1 "A"], e⟩ ∧
      (0 : Int) ≤ e ∧
      ∀ now2 env2, now2 ≤ e →
        getSites now2 env2 (some ⟨[Site.mk 1 "A"], 3600000⟩) =
          .ok ([Site.mk 1 "A"], some ⟨[Site.mk 1 "A"], 3600000⟩, false) :=
  getSites_cache_roundtrip.1 0 ⟨false, .ok none, .ok [⟨some 1, some "A"⟩]⟩ none
    [Site.mk 1 "A"] (some ⟨[Site.mk 1 "A"], 3600000⟩) true rfl

/-- **C1** — evidence of the schema/handler mismatch: the `sl_departures`
input schema requires `siteId` and, being `.strict()`, rejects the
`station` (and `id`) keys as unknown, so a call that supplies a station
name and no `siteId` never reaches the handler's name-resolution branch; a
call with `siteId` alone is the only accepted shape of the four below —
contradicting the tool's own description ("Get SL departures for a station
name or siteId") and the handler code that destructures `station`/`id`. -/
theorem sl_departures_schema_requires_siteId :
    validateSlDeparturesArgs { station := some "T-Centralen" } = false
    ∧ validateSlDeparturesArgs { siteId := some 9001, station := some "T-Centralen" } = false
    ∧ validateSlDeparturesArgs {} = false
    ∧ validateSlDeparturesArgs { siteId := some 9001 } = true := by
  exact ⟨rfl, rfl, rfl, rfl⟩
